import Mathlib

/-!
Verification of the `hydra-program` CLI utilities (`hpinit.py`, `hprun.py`)
against their natural-language specification.

The filesystem-facing code of `hpinit.py` is shallowly embedded: the bundled
template source tree becomes an inductive tree of named entries (regular
files carrying abstract string contents, directories, and entries that are
neither, such as broken symlinks or FIFOs); the destination filesystem under
`./config` becomes a finite association list from relative paths to file
contents, with the most recent write shadowing earlier ones.  Directory
creation (`mkdir` with `exist_ok`/`parents`) has no observable effect in
this content model and is modelled as a no-op; file metadata is not
modelled.  Printed progress lines and the final summary are modelled as
lists of structured events so that claims about the output can be stated.
-/

/-- A path relative to the destination root, as the list of path components
(`dst_item.relative_to(dest_path)` in the source). -/
abbrev RelPath := List String

mutual
/-- One entry of the bundled template source tree.  `file` models an entry
for which `src_item.is_file()` holds, `dir` one for which `src_item.is_dir()`
holds, and `other` an entry that is neither (e.g. a broken symlink or a
FIFO), which the source's `if`/`elif` dispatch leaves unhandled. -/
inductive FsNode where
  | file (content : String)
  | dir (entries : FsEntries)
  | other

/-- The ordered sequence of named entries of a source directory, in the
order `src_dir.iterdir()` yields them. -/
inductive FsEntries where
  | nil
  | cons (name : String) (node : FsNode) (rest : FsEntries)
end

/-- The destination filesystem under `dest_path`: an association list from
relative paths to file contents.  The head-most binding for a path is the
current content (writes shadow earlier bindings). -/
structure DestFS where
  files : List (RelPath × String)
deriving DecidableEq

/-- `dst_item.exists()` for a candidate destination file path. -/
def DestFS.existsFile (fs : DestFS) (p : RelPath) : Bool :=
  fs.files.any (fun e => e.1 == p)

/-- `shutil.copy2(src_item, dst_item)`: (over)write the destination file at
`p` with content `c`. -/
def DestFS.write (fs : DestFS) (p : RelPath) (c : String) : DestFS :=
  ⟨(p, c) :: fs.files⟩

/-- The current content of the destination file at `p`, if any. -/
def DestFS.read? (fs : DestFS) (p : RelPath) : Option String :=
  (fs.files.find? (fun e => e.1 == p)).map Prod.snd

/-- The empty destination filesystem. -/
def emptyFS : DestFS := ⟨[]⟩

/-- One progress line printed by `copy_recursive`: `Copying: p`,
`Overwriting: p`, or `Skipping existing file: p`. -/
inductive CopyEvent where
  | copying (p : RelPath)
  | overwriting (p : RelPath)
  | skipping (p : RelPath)
deriving DecidableEq

/-- The mutable state threaded through `copy_recursive`: the destination
filesystem, the `copied_files` and `skipped_files` accumulators, and the
progress lines printed so far. -/
structure CopyState where
  fs : DestFS
  copied : List RelPath
  skipped : List RelPath
  events : List CopyEvent
deriving DecidableEq

/-- The state at the start of `copy_config_templates`' copy phase:
`copied_files = []`, `skipped_files = []`, nothing printed yet. -/
def initState (fs0 : DestFS) : CopyState := ⟨fs0, [], [], []⟩

mutual
/-- The body of the `for item in src_dir.iterdir()` loop of
`copy_recursive` for a single entry `name` of kind `node`, with `dstDir` the
destination directory's relative path.  Mirrors `hpinit.py` lines 57-80:
a file whose destination exists is skipped unless `force`; otherwise the
file is copied and the progress line's status is chosen by evaluating
`dst_item.exists() and force` AFTER the copy, exactly as the source does;
a directory is recursed into; any other entry falls through both branches
untouched. -/
def copy_item (force : Bool) : String → FsNode → RelPath → CopyState → CopyState
  | name, FsNode.file content, dstDir, st =>
      let dst := dstDir ++ [name]
      if st.fs.existsFile dst && !force then
        { st with skipped := st.skipped ++ [dst],
                  events := st.events ++ [CopyEvent.skipping dst] }
      else
        let fs1 := st.fs.write dst content
        let ev := if fs1.existsFile dst && force then CopyEvent.overwriting dst
                  else CopyEvent.copying dst
        { fs := fs1, copied := st.copied ++ [dst], skipped := st.skipped,
          events := st.events ++ [ev] }
  | name, FsNode.dir entries, dstDir, st =>
      copy_recursive force entries (dstDir ++ [name]) st
  | _, FsNode.other, _, st => st

/-- `copy_recursive(src_dir, dst_dir)`: fold the loop body over the
directory's entries in order.  (In `copy_item` the directory case re-enters
here at the child directory's destination path.) -/
def copy_recursive (force : Bool) : FsEntries → RelPath → CopyState → CopyState
  | FsEntries.nil, _, st => st
  | FsEntries.cons name node rest, dstDir, st =>
      copy_recursive force rest dstDir (copy_item force name node dstDir st)
end

/-- `copy_config_templates(force)` restricted to its copy phase: run
`copy_recursive` from the source root over an initial destination
filesystem, with empty accumulators.  (Location lookup, `mkdir` of the
destination root and the summary are modelled separately below.) -/
def copy_config_templates (force : Bool) (src : FsEntries) (fs0 : DestFS) : CopyState :=
  copy_recursive force src [] (initState fs0)

mutual
/-- The regular files of a source subtree rooted at destination path `p`,
as `(relative destination path, content)` pairs in traversal order. -/
def filesOfNode : RelPath → FsNode → List (RelPath × String)
  | p, FsNode.file c => [(p, c)]
  | p, FsNode.dir entries => filesOfEntries p entries
  | _, FsNode.other => []

/-- The regular files below a sequence of source entries whose destination
directory is `p`, in traversal order. -/
def filesOfEntries : RelPath → FsEntries → List (RelPath × String)
  | _, FsEntries.nil => []
  | p, FsEntries.cons name node rest =>
      filesOfNode (p ++ [name]) node ++ filesOfEntries p rest
end

/-- The relative destination paths of all regular files of the source tree,
in traversal order. -/
def filePaths (src : FsEntries) : List RelPath :=
  (filesOfEntries [] src).map Prod.fst

/-- Write a list of `(path, content)` pairs to the destination in order. -/
def writeAll (fs : DestFS) (l : List (RelPath × String)) : DestFS :=
  l.foldl (fun a e => a.write e.1 e.2) fs

/-- One line of the final output block of `copy_config_templates`
(`hpinit.py` lines 85-95). -/
inductive SummaryLine where
  | summaryHeader
  | copiedCount (n : Nat)
  | skippedCount (n : Nat)
  | forceHint
  | doneMessage
  | noFilesToCopy
deriving DecidableEq

/-- The final output block of `copy_config_templates`: the summary header
and copied-count are printed unconditionally; the skipped-count and the
force hint only when files were skipped; then either the "templates have
been initialized" line (when anything was copied or skipped) or the
"No files to copy." line. -/
def summaryLines (copied skipped : List RelPath) : List SummaryLine :=
  [SummaryLine.summaryHeader, SummaryLine.copiedCount copied.length] ++
  (if skipped.isEmpty then [] else
    [SummaryLine.skippedCount skipped.length, SummaryLine.forceHint]) ++
  (if !copied.isEmpty || !skipped.isEmpty then [SummaryLine.doneMessage]
   else [SummaryLine.noFilesToCopy])

/-- The error raised by `get_config_templates_path`. -/
inductive InitError where
  | fileNotFound
deriving DecidableEq

/-- `get_config_templates_path()`: raises `FileNotFoundError` when the
bundled `config_templates` directory cannot be located or does not exist
(`hpinit.py` lines 28-31); `present` abstracts that existence check. -/
def get_config_templates_path (present : Bool) : Except InitError Unit :=
  if present then Except.ok () else Except.error InitError.fileNotFound

/-- `copy_config_templates(force)` in full (`hpinit.py` lines 44-95): first
resolve the source location (which may raise), then create the destination
root directory, run the recursive copy, and produce the output block.  The
returned `Bool` records whether `dest_path.mkdir(exist_ok=True)` was
reached; on a location failure the exception propagates before the `mkdir`
on line 50 runs, so no destination state is touched. -/
def copy_config_templates_full (present : Bool) (force : Bool) (src : FsEntries)
    (fs0 : DestFS) : Except InitError (CopyState × List SummaryLine × Bool) :=
  match get_config_templates_path present with
  | Except.error e => Except.error e
  | Except.ok _ =>
      let st := copy_config_templates force src fs0
      Except.ok (st, summaryLines st.copied st.skipped, true)

/-- The observable outcome of one `hpinit` invocation: process exit code,
final destination filesystem, and whether the destination root directory
was created. -/
structure InitOutcome where
  exitCode : Nat
  fs : DestFS
  destDirCreated : Bool
deriving DecidableEq

/-- `main()` of `hpinit.py` (lines 113-120): run `copy_config_templates`,
catch `FileNotFoundError` and exit with status 1; otherwise exit 0. -/
def hpinit_main (present : Bool) (force : Bool) (src : FsEntries)
    (fs0 : DestFS) : InitOutcome :=
  match copy_config_templates_full present force src fs0 with
  | Except.error _ => ⟨1, fs0, false⟩
  | Except.ok (st, _, created) => ⟨0, st.fs, created⟩

/-- `os.path.join(root, d)` for the paths involved here. -/
def os_path_join (a b : String) : String := a ++ "/" ++ b

/-- The inner search loop of `_get_default_config_path`: try each candidate
directory name in order under `cwd`, returning the first path for which
`os.path.exists(path) and os.path.isdir(path)` holds (abstracted as the
predicate `isDirAt`); `os.path.abspath` is the identity here because `cwd`
is already absolute. -/
def configDirSearch (cwd : String) (isDirAt : String → Bool) :
    List String → Option String
  | [] => none
  | d :: rest =>
      let p := os_path_join cwd d
      if isDirAt p then some p else configDirSearch cwd isDirAt rest

/-- `_get_default_config_path()` of `hprun.py` (lines 16-22): search
`["config", "configs"]` under the current working directory and return the
first existing directory's absolute path, or `None`. -/
def _get_default_config_path (cwd : String) (isDirAt : String → Bool) :
    Option String :=
  configDirSearch cwd isDirAt ["config", "configs"]

/-- One step of the `hprun` entry function's body, recorded for the trace:
resolving the configuration tree in place, instantiating an object from a
tree, or invoking `run` on an object. -/
inductive HprunStep (Cfg Obj : Type) where
  | resolveStep (before after : Cfg)
  | buildStep (arg : Cfg) (result : Obj)
  | runStep (obj : Obj)

/-- The body of `main(cfg)` in `hprun.py` (lines 54-56), parametrised over
the external framework's operations: `OmegaConf.resolve` (in-place, so
modelled as returning the resolved tree or the framework's resolution
error, which is not caught locally), `instantiate`, and the object's `run`
method whose return value is discarded.  The result is the trace of steps
performed, or the uncaught resolution error. -/
def hprun_main {Cfg Obj R Err : Type}
    (resolve : Cfg → Except Err Cfg) (inst : Cfg → Obj) (runMethod : Obj → R)
    (cfg : Cfg) : Except Err (List (HprunStep Cfg Obj)) :=
  match resolve cfg with
  | Except.error e => Except.error e
  | Except.ok resolved =>
      let program := inst resolved
      let _ := runMethod program
      Except.ok [HprunStep.resolveStep cfg resolved,
                 HprunStep.buildStep resolved program,
                 HprunStep.runStep program]

/-- A small concrete source tree used to instantiate the proved properties:
`a.yaml` at the root and `sub/b.yaml` inside a subdirectory. -/
def sampleSrc : FsEntries :=
  FsEntries.cons "a.yaml" (FsNode.file "alpha")
    (FsEntries.cons "sub"
      (FsNode.dir (FsEntries.cons "b.yaml" (FsNode.file "beta") FsEntries.nil))
      FsEntries.nil)

/-- A concrete prior destination filesystem that already holds `a.yaml`. -/
def sampleFS : DestFS := ⟨[(["a.yaml"], "old")]⟩

/-! ### Basic lemmas about the destination filesystem -/

theorem existsFile_write (fs : DestFS) (p q : RelPath) (c : String) :
    (fs.write p c).existsFile q = (p == q || fs.existsFile q) := by
  simp [DestFS.write, DestFS.existsFile, List.any_cons, BEq.comm]

theorem read?_write_self (fs : DestFS) (p : RelPath) (c : String) :
    (fs.write p c).read? p = some c := by
  simp [DestFS.write, DestFS.read?, List.find?_cons]

theorem read?_write_ne (fs : DestFS) (p q : RelPath) (c : String) (h : p ≠ q) :
    (fs.write p c).read? q = fs.read? q := by
  simp [DestFS.write, DestFS.read?, List.find?_cons, h]

theorem writeAll_append (fs : DestFS) (a b : List (RelPath × String)) :
    writeAll fs (a ++ b) = writeAll (writeAll fs a) b := by
  simp [writeAll, List.foldl_append]

theorem existsFile_writeAll (fs : DestFS) (l : List (RelPath × String)) (q : RelPath) :
    (writeAll fs l).existsFile q
      = (fs.existsFile q || l.any (fun e => e.1 == q)) := by
  induction l generalizing fs with
  | nil => simp [writeAll]
  | cons e t ih =>
      simp only [writeAll, List.foldl_cons] at *
      rw [ih, existsFile_write, List.any_cons]
      cases h1 : (e.1 == q) <;> cases h2 : fs.existsFile q <;> simp [h1, h2]

theorem read?_writeAll_notMem (fs : DestFS) (l : List (RelPath × String)) (q : RelPath)
    (h : ∀ e ∈ l, e.1 ≠ q) : (writeAll fs l).read? q = fs.read? q := by
  induction l generalizing fs with
  | nil => simp [writeAll]
  | cons e t ih =>
      simp only [writeAll, List.foldl_cons]
      rw [show List.foldl (fun a e => a.write e.1 e.2) (fs.write e.1 e.2) t
            = writeAll (fs.write e.1 e.2) t from rfl]
      rw [ih _ (fun x hx => h x (List.mem_cons_of_mem e hx))]
      exact read?_write_ne fs e.1 q e.2 (h e (List.mem_cons_self e t))

theorem read?_writeAll_mem (fs : DestFS) (l : List (RelPath × String)) (q : RelPath)
    (c : String) (hnd : (l.map Prod.fst).Nodup) (hm : (q, c) ∈ l) :
    (writeAll fs l).read? q = some c := by
  induction l generalizing fs with
  | nil => simp at hm
  | cons e t ih =>
      simp only [List.map_cons, List.nodup_cons] at hnd
      simp only [writeAll, List.foldl_cons]
      rcases List.mem_cons.mp hm with h | h
      · rw [← h] at hnd ⊢
        have hnotin : ∀ x ∈ t, x.1 ≠ q := by
          intro x hx hx1
          apply hnd.1
          have hmem : x.1 ∈ List.map Prod.fst t := List.mem_map_of_mem Prod.fst hx
          rw [hx1] at hmem
          exact hmem
        rw [show List.foldl (fun a e => a.write e.1 e.2) (fs.write (q, c).1 (q, c).2) t
              = writeAll (fs.write q c) t from rfl,
            read?_writeAll_notMem _ _ _ hnotin, read?_write_self]
      · rw [show List.foldl (fun a e => a.write e.1 e.2) (fs.write e.1 e.2) t
              = writeAll (fs.write e.1 e.2) t from rfl]
        exact ih (fs.write e.1 e.2) hnd.2 h

/-! ### Monotonicity of destination-file existence under the copy loop -/

mutual
theorem copy_item_exists_mono (force : Bool) (name : String) (n : FsNode)
    (p : RelPath) (st : CopyState) (q : RelPath)
    (h : st.fs.existsFile q = true) :
    (copy_item force name n p st).fs.existsFile q = true := by
  cases n with
  | file c =>
      simp only [copy_item]
      split
      · exact h
      · simp [existsFile_write, h]
  | dir entries => exact copy_recursive_exists_mono force entries (p ++ [name]) st q h
  | other => exact h

theorem copy_recursive_exists_mono (force : Bool) (es : FsEntries) (p : RelPath)
    (st : CopyState) (q : RelPath) (h : st.fs.existsFile q = true) :
    (copy_recursive force es p st).fs.existsFile q = true := by
  cases es with
  | nil => exact h
  | cons name node rest =>
      exact copy_recursive_exists_mono force rest p _ q
        (copy_item_exists_mono force name node p st q h)
end

/-! ### The `skipped_files` accumulator only grows -/

mutual
theorem copy_item_skipped_sub (force : Bool) (name : String) (n : FsNode) (p : RelPath)
    (st : CopyState) : ∃ l, (copy_item force name n p st).skipped = st.skipped ++ l := by
  cases n with
  | file c =>
      simp only [copy_item]
      split
      · exact ⟨_, rfl⟩
      · exact ⟨[], by simp⟩
  | dir entries => exact copy_recursive_skipped_sub force entries (p ++ [name]) st
  | other => exact ⟨[], by simp [copy_item]⟩

theorem copy_recursive_skipped_sub (force : Bool) (es : FsEntries) (p : RelPath)
    (st : CopyState) : ∃ l, (copy_recursive force es p st).skipped = st.skipped ++ l := by
  cases es with
  | nil => exact ⟨[], by simp [copy_recursive]⟩
  | cons name node rest =>
      obtain ⟨l1, h1⟩ := copy_item_skipped_sub force name node p st
      obtain ⟨l2, h2⟩ :=
        copy_recursive_skipped_sub force rest p (copy_item force name node p st)
      refine ⟨l1 ++ l2, ?_⟩
      simp only [copy_recursive]
      rw [h2, h1, List.append_assoc]
end

/-! ### Closed form of the copy loop when `force` is true -/

mutual
theorem copy_item_force_true (name : String) (n : FsNode) (p : RelPath) (st : CopyState) :
    copy_item true name n p st =
      ⟨writeAll st.fs (filesOfNode (p ++ [name]) n),
       st.copied ++ (filesOfNode (p ++ [name]) n).map Prod.fst,
       st.skipped,
       st.events ++ (filesOfNode (p ++ [name]) n).map
          (fun e => CopyEvent.overwriting e.1)⟩ := by
  cases n with
  | file c =>
      simp [copy_item, filesOfNode, writeAll, existsFile_write]
  | dir entries =>
      simp only [copy_item, filesOfNode]
      exact copy_recursive_force_true entries (p ++ [name]) st
  | other => simp [copy_item, filesOfNode, writeAll]

theorem copy_recursive_force_true (es : FsEntries) (p : RelPath) (st : CopyState) :
    copy_recursive true es p st =
      ⟨writeAll st.fs (filesOfEntries p es),
       st.copied ++ (filesOfEntries p es).map Prod.fst,
       st.skipped,
       st.events ++ (filesOfEntries p es).map
          (fun e => CopyEvent.overwriting e.1)⟩ := by
  cases es with
  | nil => simp [copy_recursive, filesOfEntries, writeAll]
  | cons name node rest =>
      simp only [copy_recursive]
      rw [copy_item_force_true name node p st,
          copy_recursive_force_true rest p _]
      simp [filesOfEntries, ← writeAll_append, List.append_assoc]
end

/-! ### Each regular file contributes exactly one `copied` or `skipped` entry -/

mutual
theorem copy_item_count (force : Bool) (name : String) (n : FsNode) (p : RelPath)
    (st : CopyState) :
    (copy_item force name n p st).copied.length
        + (copy_item force name n p st).skipped.length
      = st.copied.length + st.skipped.length
        + (filesOfNode (p ++ [name]) n).length := by
  cases n with
  | file c =>
      simp only [copy_item, filesOfNode]
      split <;> simp <;> omega
  | dir entries =>
      simp only [copy_item, filesOfNode]
      exact copy_recursive_count force entries (p ++ [name]) st
  | other => simp [copy_item, filesOfNode]

theorem copy_recursive_count (force : Bool) (es : FsEntries) (p : RelPath)
    (st : CopyState) :
    (copy_recursive force es p st).copied.length
        + (copy_recursive force es p st).skipped.length
      = st.copied.length + st.skipped.length
        + (filesOfEntries p es).length := by
  cases es with
  | nil => simp [copy_recursive, filesOfEntries]
  | cons name node rest =>
      simp only [copy_recursive, filesOfEntries, List.length_append]
      rw [copy_recursive_count force rest p (copy_item force name node p st),
          copy_item_count force name node p st]
      omega
end

/-! ### Membership in an association list's domain, as a Boolean search -/

theorem any_fst_eq_mem (l : List (RelPath × String)) (q : RelPath) :
    l.any (fun e => e.1 == q) = true ↔ q ∈ l.map Prod.fst := by
  constructor
  · intro h
    obtain ⟨e, he, hb⟩ := List.any_eq_true.mp h
    exact (beq_iff_eq.mp hb) ▸ List.mem_map_of_mem Prod.fst he
  · intro h
    obtain ⟨e, he, hfst⟩ := List.mem_map.mp h
    exact List.any_eq_true.mpr ⟨e, he, beq_iff_eq.mpr hfst⟩

/-! ### Closed form when `force` is false and every destination file exists -/

mutual
theorem copy_item_all_exist (name : String) (n : FsNode) (p : RelPath) (st : CopyState)
    (h : ∀ q ∈ (filesOfNode (p ++ [name]) n).map Prod.fst,
        st.fs.existsFile q = true) :
    copy_item false name n p st =
      ⟨st.fs, st.copied,
       st.skipped ++ (filesOfNode (p ++ [name]) n).map Prod.fst,
       st.events ++ (filesOfNode (p ++ [name]) n).map
          (fun e => CopyEvent.skipping e.1)⟩ := by
  cases n with
  | file c =>
      have hdst : st.fs.existsFile (p ++ [name]) = true :=
        h _ (by simp [filesOfNode])
      simp only [copy_item, filesOfNode]
      rw [hdst]
      simp
  | dir entries =>
      simp only [filesOfNode] at h
      simp only [copy_item, filesOfNode]
      exact copy_recursive_all_exist entries (p ++ [name]) st h
  | other => simp [copy_item, filesOfNode]

theorem copy_recursive_all_exist (es : FsEntries) (p : RelPath) (st : CopyState)
    (h : ∀ q ∈ (filesOfEntries p es).map Prod.fst,
        st.fs.existsFile q = true) :
    copy_recursive false es p st =
      ⟨st.fs, st.copied,
       st.skipped ++ (filesOfEntries p es).map Prod.fst,
       st.events ++ (filesOfEntries p es).map
          (fun e => CopyEvent.skipping e.1)⟩ := by
  cases es with
  | nil => simp [copy_recursive, filesOfEntries]
  | cons name node rest =>
      simp only [filesOfEntries, List.map_append] at h
      have hA : ∀ q ∈ (filesOfNode (p ++ [name]) node).map Prod.fst,
          st.fs.existsFile q = true :=
        fun q hq => h q (List.mem_append_left _ hq)
      simp only [copy_recursive]
      rw [copy_item_all_exist name node p st hA]
      rw [copy_recursive_all_exist rest p
        ⟨st.fs, st.copied,
         st.skipped ++ (filesOfNode (p ++ [name]) node).map Prod.fst,
         st.events ++ (filesOfNode (p ++ [name]) node).map
            (fun e => CopyEvent.skipping e.1)⟩
        (fun q hq => h q (List.mem_append_right _ hq))]
      simp [filesOfEntries, List.append_assoc]
end

/-! ### Closed form when `force` is false and no destination file exists -/

mutual
theorem copy_item_fresh (name : String) (n : FsNode) (p : RelPath) (st : CopyState)
    (h : ∀ q ∈ (filesOfNode (p ++ [name]) n).map Prod.fst,
        st.fs.existsFile q = false)
    (hnd : ((filesOfNode (p ++ [name]) n).map Prod.fst).Nodup) :
    copy_item false name n p st =
      ⟨writeAll st.fs (filesOfNode (p ++ [name]) n),
       st.copied ++ (filesOfNode (p ++ [name]) n).map Prod.fst,
       st.skipped,
       st.events ++ (filesOfNode (p ++ [name]) n).map
          (fun e => CopyEvent.copying e.1)⟩ := by
  cases n with
  | file c =>
      have hdst : st.fs.existsFile (p ++ [name]) = false :=
        h _ (by simp [filesOfNode])
      simp [copy_item, filesOfNode, hdst, writeAll]
  | dir entries =>
      simp only [filesOfNode] at h hnd
      simp only [copy_item, filesOfNode]
      exact copy_recursive_fresh entries (p ++ [name]) st h hnd
  | other => simp [copy_item, filesOfNode, writeAll]

theorem copy_recursive_fresh (es : FsEntries) (p : RelPath) (st : CopyState)
    (h : ∀ q ∈ (filesOfEntries p es).map Prod.fst,
        st.fs.existsFile q = false)
    (hnd : ((filesOfEntries p es).map Prod.fst).Nodup) :
    copy_recursive false es p st =
      ⟨writeAll st.fs (filesOfEntries p es),
       st.copied ++ (filesOfEntries p es).map Prod.fst,
       st.skipped,
       st.events ++ (filesOfEntries p es).map
          (fun e => CopyEvent.copying e.1)⟩ := by
  cases es with
  | nil => simp [copy_recursive, filesOfEntries, writeAll]
  | cons name node rest =>
      simp only [filesOfEntries, List.map_append] at h hnd
      have hsplit := List.nodup_append.mp hnd
      have hA : ∀ q ∈ (filesOfNode (p ++ [name]) node).map Prod.fst,
          st.fs.existsFile q = false :=
        fun q hq => h q (List.mem_append_left _ hq)
      have hB : ∀ q ∈ (filesOfEntries p rest).map Prod.fst,
          (writeAll st.fs (filesOfNode (p ++ [name]) node)).existsFile q = false := by
        intro q hq
        rw [existsFile_writeAll]
        have h1 : st.fs.existsFile q = false := h q (List.mem_append_right _ hq)
        have h2 : (filesOfNode (p ++ [name]) node).any (fun e => e.1 == q) = false := by
          rw [Bool.eq_false_iff]
          intro hc
          exact hsplit.2.2 ((any_fst_eq_mem _ q).mp hc) hq
        simp [h1, h2]
      simp only [copy_recursive]
      rw [copy_item_fresh name node p st hA hsplit.1]
      rw [copy_recursive_fresh rest p
        ⟨writeAll st.fs (filesOfNode (p ++ [name]) node),
         st.copied ++ (filesOfNode (p ++ [name]) node).map Prod.fst,
         st.skipped,
         st.events ++ (filesOfNode (p ++ [name]) node).map
            (fun e => CopyEvent.copying e.1)⟩
        hB hsplit.2.1]
      simp [filesOfEntries, ← writeAll_append, List.append_assoc]
end

/-! ### With `force` false, an existing destination file is never rewritten -/

mutual
theorem copy_item_no_clobber (name : String) (n : FsNode) (p : RelPath) (st : CopyState)
    (q : RelPath) (h : st.fs.existsFile q = true) :
    (copy_item false name n p st).fs.read? q = st.fs.read? q := by
  cases n with
  | file c =>
      simp only [copy_item]
      split
      · rfl
      · rename_i hcond
        have hex : st.fs.existsFile (p ++ [name]) = false := by
          simpa using hcond
        have hne : (p ++ [name]) ≠ q := by
          intro e
          rw [e, h] at hex
          simp at hex
        exact read?_write_ne st.fs (p ++ [name]) q c hne
  | dir entries => exact copy_recursive_no_clobber entries (p ++ [name]) st q h
  | other => rfl

theorem copy_recursive_no_clobber (es : FsEntries) (p : RelPath) (st : CopyState)
    (q : RelPath) (h : st.fs.existsFile q = true) :
    (copy_recursive false es p st).fs.read? q = st.fs.read? q := by
  cases es with
  | nil => rfl
  | cons name node rest =>
      have h1 := copy_item_exists_mono false name node p st q h
      simp only [copy_recursive]
      rw [copy_recursive_no_clobber rest p _ q h1]
      exact copy_item_no_clobber name node p st q h
end

/-! ### With `force` false, a file whose destination exists lands in `skipped_files` -/

mutual
theorem copy_item_skip_mem (name : String) (n : FsNode) (p : RelPath) (st : CopyState)
    (q : RelPath) (hq : q ∈ (filesOfNode (p ++ [name]) n).map Prod.fst)
    (h : st.fs.existsFile q = true) :
    q ∈ (copy_item false name n p st).skipped := by
  cases n with
  | file c =>
      have hqe : q = p ++ [name] := by simpa [filesOfNode] using hq
      subst hqe
      simp only [copy_item]
      rw [h]
      simp
  | dir entries =>
      simp only [filesOfNode] at hq
      exact copy_recursive_skip_mem entries (p ++ [name]) st q hq h
  | other => simp [filesOfNode] at hq

theorem copy_recursive_skip_mem (es : FsEntries) (p : RelPath) (st : CopyState)
    (q : RelPath) (hq : q ∈ (filesOfEntries p es).map Prod.fst)
    (h : st.fs.existsFile q = true) :
    q ∈ (copy_recursive false es p st).skipped := by
  cases es with
  | nil => simp [filesOfEntries] at hq
  | cons name node rest =>
      simp only [filesOfEntries, List.map_append] at hq
      simp only [copy_recursive]
      rcases List.mem_append.mp hq with hA | hB
      · have hmem := copy_item_skip_mem name node p st q hA h
        obtain ⟨l, hl⟩ :=
          copy_recursive_skipped_sub false rest p (copy_item false name node p st)
        rw [hl]
        exact List.mem_append_left _ hmem
      · exact copy_recursive_skip_mem rest p _ q hB
          (copy_item_exists_mono false name node p st q h)
end

/-! ### After the copy loop, every source file's destination exists -/

mutual
theorem copy_item_exists_after (force : Bool) (name : String) (n : FsNode) (p : RelPath)
    (st : CopyState) (q : RelPath)
    (hq : q ∈ (filesOfNode (p ++ [name]) n).map Prod.fst) :
    (copy_item force name n p st).fs.existsFile q = true := by
  cases n with
  | file c =>
      have hqe : q = p ++ [name] := by simpa [filesOfNode] using hq
      subst hqe
      simp only [copy_item]
      split
      · rename_i hcond
        simp only [Bool.and_eq_true] at hcond
        exact hcond.1
      · simp [existsFile_write]
  | dir entries =>
      simp only [filesOfNode] at hq
      exact copy_recursive_exists_after force entries (p ++ [name]) st q hq
  | other => simp [filesOfNode] at hq

theorem copy_recursive_exists_after (force : Bool) (es : FsEntries) (p : RelPath)
    (st : CopyState) (q : RelPath)
    (hq : q ∈ (filesOfEntries p es).map Prod.fst) :
    (copy_recursive force es p st).fs.existsFile q = true := by
  cases es with
  | nil => simp [filesOfEntries] at hq
  | cons name node rest =>
      simp only [filesOfEntries, List.map_append] at hq
      simp only [copy_recursive]
      rcases List.mem_append.mp hq with hA | hB
      · exact copy_recursive_exists_mono force rest p _ q
          (copy_item_exists_after force name node p st q hA)
      · exact copy_recursive_exists_after force rest p _ q hB
end

/-! ## Claim theorems -/

/-- Claim C1: the claim says the per-file progress line reports `overwrite`
exactly when the destination existed before the copy and `force` is true,
and a fresh copy otherwise.  The code instead evaluates `dst_item.exists()`
AFTER `shutil.copy2`, where it is always true, so with `force = true` even
a file whose destination did not exist is reported as "Overwriting".  This
theorem evaluates the embedded code at that failing input: the destination
is empty (so `a.yaml` does not exist beforehand), `force` is true, and the
printed action is `overwriting`, not `copying`. -/
theorem fresh_copy_reported_as_overwrite :
    emptyFS.existsFile ["a.yaml"] = false ∧
    (copy_config_templates true
        (FsEntries.cons "a.yaml" (FsNode.file "x") FsEntries.nil) emptyFS).events
      = [CopyEvent.overwriting ["a.yaml"]] :=
  ⟨rfl, rfl⟩

/-- Claim C2, counterexample: on a source tree with no files at all the
program does print the "No files to copy." message, but — contrary to the
claim — it also prints the summary: the summary header and the
copied-count line (with count 0) appear in the output even though no file
was copied or skipped. -/
theorem summary_printed_without_files :
    (copy_config_templates false FsEntries.nil emptyFS).copied = [] ∧
    (copy_config_templates false FsEntries.nil emptyFS).skipped = [] ∧
    SummaryLine.noFilesToCopy
        ∈ summaryLines (copy_config_templates false FsEntries.nil emptyFS).copied
            (copy_config_templates false FsEntries.nil emptyFS).skipped ∧
    SummaryLine.summaryHeader
        ∈ summaryLines (copy_config_templates false FsEntries.nil emptyFS).copied
            (copy_config_templates false FsEntries.nil emptyFS).skipped ∧
    SummaryLine.copiedCount 0
        ∈ summaryLines (copy_config_templates false FsEntries.nil emptyFS).copied
            (copy_config_templates false FsEntries.nil emptyFS).skipped := by
  decide

/-- Claim C2 (amended): when the source tree contains no files at all,
nothing is copied or skipped and the run prints the "No files to copy."
message in place of the final "templates have been initialized" line; the
summary header and the copied-count line (count 0) are still printed, and
the skipped-count line and force hint are omitted. -/
theorem no_files_summary_block (force : Bool) (src : FsEntries) (fs0 : DestFS)
    (h : filesOfEntries [] src = []) :
    (copy_config_templates force src fs0).copied = [] ∧
    (copy_config_templates force src fs0).skipped = [] ∧
    summaryLines (copy_config_templates force src fs0).copied
        (copy_config_templates force src fs0).skipped
      = [SummaryLine.summaryHeader, SummaryLine.copiedCount 0,
         SummaryLine.noFilesToCopy] := by
  have hc := copy_recursive_count force src [] (initState fs0)
  rw [h] at hc
  simp only [initState, List.length_nil] at hc
  simp only [copy_config_templates, initState]
  have ha : (copy_recursive force src [] (CopyState.mk fs0 [] [] [])).copied.length
      = 0 := by omega
  have hb : (copy_recursive force src [] (CopyState.mk fs0 [] [] [])).skipped.length
      = 0 := by omega
  have ha' := List.length_eq_zero.mp ha
  have hb' := List.length_eq_zero.mp hb
  refine ⟨ha', hb', ?_⟩
  rw [ha', hb']
  simp [summaryLines]

/-- Witness for the amended Claim C2, at a source tree consisting of one
empty directory. -/
theorem no_files_summary_block_witness :
    filesOfEntries []
        (FsEntries.cons "d" (FsNode.dir FsEntries.nil) FsEntries.nil) = [] ∧
    ((copy_config_templates false
        (FsEntries.cons "d" (FsNode.dir FsEntries.nil) FsEntries.nil)
        emptyFS).copied = [] ∧
     (copy_config_templates false
        (FsEntries.cons "d" (FsNode.dir FsEntries.nil) FsEntries.nil)
        emptyFS).skipped = [] ∧
     summaryLines
        (copy_config_templates false
          (FsEntries.cons "d" (FsNode.dir FsEntries.nil) FsEntries.nil)
          emptyFS).copied
        (copy_config_templates false
          (FsEntries.cons "d" (FsNode.dir FsEntries.nil) FsEntries.nil)
          emptyFS).skipped
      = [SummaryLine.summaryHeader, SummaryLine.copiedCount 0,
         SummaryLine.noFilesToCopy]) :=
  ⟨rfl, no_files_summary_block false _ emptyFS rfl⟩

/-- Claim C3: when the bundled template directory is absent,
`get_config_templates_path` raises `FileNotFoundError` before the
destination `config` directory is created or any file is copied; `main`
catches it and exits with status 1, leaving the destination filesystem
exactly as it was (so in particular it holds no partial contents). -/
theorem missing_templates_exit_one_fs_unchanged (force : Bool) (src : FsEntries)
    (fs0 : DestFS) :
    copy_config_templates_full false force src fs0
        = Except.error InitError.fileNotFound ∧
    hpinit_main false force src fs0 = ⟨1, fs0, false⟩ :=
  ⟨rfl, rfl⟩

/-- Claim C4: with `force = false` and an empty destination, every file of
the source tree is copied to its own relative destination path with its
content intact, nothing is skipped, and the copied-count reported in the
summary equals the total number of files in the source tree. -/
theorem fresh_run_copies_all_files (src : FsEntries)
    (hnd : (filePaths src).Nodup) :
    (copy_config_templates false src emptyFS).copied = filePaths src ∧
    (copy_config_templates false src emptyFS).copied.length
        = (filesOfEntries [] src).length ∧
    (copy_config_templates false src emptyFS).skipped = [] ∧
    SummaryLine.copiedCount (filesOfEntries [] src).length
        ∈ summaryLines (copy_config_templates false src emptyFS).copied
            (copy_config_templates false src emptyFS).skipped ∧
    ∀ e ∈ filesOfEntries [] src,
      (copy_config_templates false src emptyFS).fs.read? e.1 = some e.2 := by
  have hfresh : ∀ q ∈ (filesOfEntries [] src).map Prod.fst,
      (initState emptyFS).fs.existsFile q = false := fun q _ => rfl
  have hmain := copy_recursive_fresh src [] (initState emptyFS) hfresh hnd
  refine ⟨?_, ?_, ?_, ?_, ?_⟩
  · simp only [copy_config_templates]
    rw [hmain]
    simp [initState, filePaths]
  · simp only [copy_config_templates]
    rw [hmain]
    simp [initState]
  · simp only [copy_config_templates]
    rw [hmain]
    simp [initState]
  · simp only [copy_config_templates]
    rw [hmain]
    simp [initState, summaryLines]
  · intro e he
    simp only [copy_config_templates]
    rw [hmain]
    simp only [initState]
    exact read?_writeAll_mem emptyFS _ e.1 e.2 hnd he

/-- Witness for Claim C4 at the sample source tree. -/
theorem fresh_run_copies_all_files_witness :
    (filePaths sampleSrc).Nodup ∧
    ((copy_config_templates false sampleSrc emptyFS).copied = filePaths sampleSrc ∧
     (copy_config_templates false sampleSrc emptyFS).copied.length
        = (filesOfEntries [] sampleSrc).length ∧
     (copy_config_templates false sampleSrc emptyFS).skipped = [] ∧
     SummaryLine.copiedCount (filesOfEntries [] sampleSrc).length
        ∈ summaryLines (copy_config_templates false sampleSrc emptyFS).copied
            (copy_config_templates false sampleSrc emptyFS).skipped ∧
     ∀ e ∈ filesOfEntries [] sampleSrc,
       (copy_config_templates false sampleSrc emptyFS).fs.read? e.1 = some e.2) :=
  ⟨by decide, fresh_run_copies_all_files sampleSrc (by decide)⟩

/-- Claim C5: a second `force = false` run over the destination produced by
a first `force = false` run copies nothing, records as skipped exactly the
files of the source tree, and leaves the destination filesystem unchanged
(the skip path is a filesystem no-op). -/
theorem second_run_skips_all_files (src : FsEntries) (fs0 : DestFS) :
    (copy_config_templates false src
        (copy_config_templates false src fs0).fs).copied = [] ∧
    (copy_config_templates false src
        (copy_config_templates false src fs0).fs).skipped = filePaths src ∧
    (copy_config_templates false src
        (copy_config_templates false src fs0).fs).fs
      = (copy_config_templates false src fs0).fs := by
  have hall : ∀ q ∈ (filesOfEntries [] src).map Prod.fst,
      (initState (copy_config_templates false src fs0).fs).fs.existsFile q = true :=
    fun q hq => copy_recursive_exists_after false src [] (initState fs0) q hq
  have h2 := copy_recursive_all_exist src []
    (initState (copy_config_templates false src fs0).fs) hall
  simp only [copy_config_templates] at h2 ⊢
  rw [h2]
  simp [initState, filePaths, copy_config_templates]

/-- Claim C6: with `force = true`, every file of the source tree is copied
(overwriting whatever was there), none is recorded as skipped, and
afterwards every source file's destination holds the source content —
for every prior destination filesystem. -/
theorem force_run_overwrites_all_files (src : FsEntries) (fs0 : DestFS)
    (hnd : (filePaths src).Nodup) :
    (copy_config_templates true src fs0).copied = filePaths src ∧
    (copy_config_templates true src fs0).skipped = [] ∧
    ∀ e ∈ filesOfEntries [] src,
      (copy_config_templates true src fs0).fs.read? e.1 = some e.2 := by
  have hmain := copy_recursive_force_true src [] (initState fs0)
  refine ⟨?_, ?_, ?_⟩
  · simp only [copy_config_templates]
    rw [hmain]
    simp [initState, filePaths]
  · simp only [copy_config_templates]
    rw [hmain]
    simp [initState]
  · intro e he
    simp only [copy_config_templates]
    rw [hmain]
    simp only [initState]
    exact read?_writeAll_mem fs0 _ e.1 e.2 hnd he

/-- Witness for Claim C6 at the sample source tree over a destination that
already holds `a.yaml` with different content. -/
theorem force_run_overwrites_all_files_witness :
    (filePaths sampleSrc).Nodup ∧
    ((copy_config_templates true sampleSrc sampleFS).copied = filePaths sampleSrc ∧
     (copy_config_templates true sampleSrc sampleFS).skipped = [] ∧
     ∀ e ∈ filesOfEntries [] sampleSrc,
       (copy_config_templates true sampleSrc sampleFS).fs.read? e.1 = some e.2) :=
  ⟨by decide, force_run_overwrites_all_files sampleSrc sampleFS (by decide)⟩

/-- Claim C7: config-directory discovery tries `config` then `configs`
under the current working directory, in that order, returning the first
candidate that exists as a directory — hence `<cwd>/config` when both
exist — and the `None` sentinel when neither does. -/
theorem config_dir_discovery_order (cwd : String) (isDirAt : String → Bool) :
    _get_default_config_path cwd isDirAt
      = (if isDirAt (os_path_join cwd "config")
         then some (os_path_join cwd "config")
         else if isDirAt (os_path_join cwd "configs")
         then some (os_path_join cwd "configs")
         else none) := by
  simp [_get_default_config_path, configDirSearch]

/-- Claim C8: with `force = false`, a source file whose destination already
exists is recorded as skipped and its destination content is left exactly
as it was (the skip path performs no write). -/
theorem existing_dest_skipped_untouched (src : FsEntries) (fs0 : DestFS)
    (q : RelPath) (hq : q ∈ filePaths src) (h : fs0.existsFile q = true) :
    q ∈ (copy_config_templates false src fs0).skipped ∧
    (copy_config_templates false src fs0).fs.read? q = fs0.read? q :=
  ⟨copy_recursive_skip_mem src [] (initState fs0) q hq h,
   copy_recursive_no_clobber src [] (initState fs0) q h⟩

/-- Witness for Claim C8: `a.yaml` pre-exists in the destination with
content "old" and is skipped and left unchanged. -/
theorem existing_dest_skipped_untouched_witness :
    (["a.yaml"] ∈ filePaths sampleSrc ∧ sampleFS.existsFile ["a.yaml"] = true) ∧
    (["a.yaml"] ∈ (copy_config_templates false sampleSrc sampleFS).skipped ∧
     (copy_config_templates false sampleSrc sampleFS).fs.read? ["a.yaml"]
        = sampleFS.read? ["a.yaml"]) :=
  ⟨⟨by decide, by decide⟩,
   existing_dest_skipped_untouched sampleSrc sampleFS ["a.yaml"]
     (by decide) (by decide)⟩

/-- Claim C9: the `hprun` entry function performs exactly three steps in
order — resolve the configuration tree, build an object from the resolved
tree (passed through unchanged), and invoke its `run` method, whose return
value is discarded — and a resolution failure propagates uncaught. -/
theorem hprun_main_three_steps {Cfg Obj R Err : Type}
    (resolve : Cfg → Except Err Cfg) (inst : Cfg → Obj) (runMethod : Obj → R)
    (cfg : Cfg) :
    (∀ e, resolve cfg = Except.error e →
        hprun_main resolve inst runMethod cfg = Except.error e) ∧
    (∀ resolved, resolve cfg = Except.ok resolved →
        hprun_main resolve inst runMethod cfg
          = Except.ok [HprunStep.resolveStep cfg resolved,
                       HprunStep.buildStep resolved (inst resolved),
                       HprunStep.runStep (inst resolved)]) := by
  constructor
  · intro e he
    simp [hprun_main, he]
  · intro resolved hr
    simp [hprun_main, hr]

/-- Witness for Claim C9 at concrete framework operations over `Nat`. -/
theorem hprun_main_three_steps_witness :
    hprun_main (fun n : Nat => (Except.ok (n + 1) : Except Unit Nat))
        (fun n => n * 2) (fun _ => ()) 0
      = Except.ok [HprunStep.resolveStep 0 1, HprunStep.buildStep 1 2,
                   HprunStep.runStep 2] :=
  (hprun_main_three_steps (fun n : Nat => (Except.ok (n + 1) : Except Unit Nat))
      (fun n => n * 2) (fun _ => ()) 0).2 1 rfl

/-- Claim C10: a source entry that is neither a regular file nor a
directory is silently ignored by the copy loop: processing it leaves the
whole state (destination filesystem, `copied_files`, `skipped_files`, and
the printed lines) unchanged, so the traversal of a directory containing
it behaves exactly as if the entry were absent. -/
theorem other_entries_silently_ignored (force : Bool) (name : String)
    (rest : FsEntries) (p : RelPath) (st : CopyState) :
    copy_item force name FsNode.other p st = st ∧
    copy_recursive force (FsEntries.cons name FsNode.other rest) p st
      = copy_recursive force rest p st :=
  ⟨rfl, rfl⟩
